import Mathlib

/-!
# Verification of the orange-signalprocessing numerical core

Shallow embedding of the numerical signal-processing logic of the
`orange-signalprocessing` widget collection, together with theorems that
settle the specification claims about it.

Python `float` values that only flow through arithmetic comparisons and
truncations are modelled as `ℚ`; signal samples fed to transcendental
operations (FFT, square root) are modelled as `ℝ`/`ℂ`.
-/

namespace SigProc

/-- Python `int(q)`: truncation of a float toward zero. -/
def pyInt (q : ℚ) : ℤ := if 0 ≤ q then ⌊q⌋ else ⌈q⌉

/-- The list of indices produced by Python `range(0, stop, step)` for a
non-negative `step` (`step = 0` is a `ValueError` and is handled by the
callers below; a *negative* `step` with `stop > 0` yields the empty range,
which the `0 < step` guard also returns). -/
def pyRangePos (stop : ℤ) (step : ℕ) : List ℕ :=
  if 0 < stop ∧ 0 < step then List.range' 0 ((stop - 1).toNat / step + 1) step else []

/-- Python list/array slice `data[i : i + m]` for a non-negative start `i`. -/
def pySliceAt (data : List ℚ) (i m : ℕ) : List ℚ := (data.drop i).take m

/-- Errors that a Python-level computation in the widgets can raise. -/
inductive PyError
  | valueError
  deriving DecidableEq, Repr

/-! ## Segmenter

`TimeDomainFeatures.segment_signal` (timedomainfeatures.py, lines 186-193)
and the identical `FrequencyDomainFeatures.segment_signal`
(frequencydomainfeatures.py, lines 171-178):

    segment_samples = int(segment_size * sampling_rate)
    step_size = int(segment_samples * (1 - overlap_rate / 100))
    segments = [
        data[i:i + segment_samples]
        for i in range(0, len(data) - segment_samples + 1, step_size)
    ]

There is no clamping of `step_size`; `range` with a zero step raises
`ValueError`. -/

/-- Value `segment_samples` as computed by `segment_signal`. -/
def segmentSamples (segment_size sampling_rate : ℚ) : ℕ :=
  (pyInt (segment_size * sampling_rate)).toNat

/-- Value `step_size` as computed by `segment_signal` (no clamping). -/
def stepSize (segment_samples : ℕ) (overlap_rate : ℚ) : ℤ :=
  pyInt ((segment_samples : ℚ) * (1 - overlap_rate / 100))

/-- The list comprehension of `segment_signal`, after the two `int(...)`
conversions: windows of `s` samples starting at `0, d, 2d, ...` while the
window fits. -/
def segmentSignalCore (data : List ℚ) (s d : ℕ) : List (List ℚ) :=
  (pyRangePos ((data.length : ℤ) - s + 1) d).map (fun i => pySliceAt data i s)

/-- Model of `TimeDomainFeatures.segment_signal` and the identical
`FrequencyDomainFeatures.segment_signal`:
computes `segment_samples` and `step_size` and evaluates the comprehension;
`range` raises `ValueError` when the step is zero. -/
def segment_signal (data : List ℚ) (segment_size overlap_rate sampling_rate : ℚ) :
    Except PyError (List (List ℚ)) :=
  let ss := segmentSamples segment_size sampling_rate
  let st := stepSize ss overlap_rate
  if st = 0 then .error .valueError
  else .ok (segmentSignalCore data ss st.toNat)

/-- Model of `RMS.commit` (rms.py, lines 110-113), which derives its step size with a clamp:

    step_size = int(window_size * (1 - overlap_rate / 100))
    if step_size < 1:
        step_size = 1
-/
def rmsStepUsed (window_size : ℕ) (overlap_rate : ℚ) : ℤ :=
  let st := pyInt ((window_size : ℚ) * (1 - overlap_rate / 100))
  if st < 1 then 1 else st

/-! ## Butterworth filter parameter validation

`Butterworth.apply_filter` (butterworth.py, lines 144-199).  The method
first runs a block of error checks, each of which issues a warning and sets
`error_check_fail = True`; if any check fired it returns before the filter
is designed (`scipy.signal.butter`) and applied (`filtfilt`). -/

/-- The three filter kinds selectable in the Butterworth widget. -/
inductive FilterType
  | lowPass
  | highPass
  | bandPass
  deriving DecidableEq, Repr

/-- A filter request: the widget state read by `apply_filter`, plus the
length of the incoming single-column signal. -/
structure FilterReq where
  ftype : FilterType
  cutoff : ℚ
  low_cutoff : ℚ
  high_cutoff : ℚ
  order : ℕ
  sampling_rate : ℚ
  dataLen : ℕ
  deriving DecidableEq, Repr

/-- The warnings `apply_filter` can issue during its error-check block. -/
inductive FilterWarning
  | low_pass
  | high_pass
  | invalid_params
  | data_length
  | samplingRateWarn
  deriving DecidableEq, Repr

/-- The error-check block of `apply_filter`, in source order:

    if filter_type == "Low-pass":
        if cutoff >= nyquist: warning_low_pass; fail
    elif filter_type == "High-pass":
        if cutoff < 1: warning_high_pass; fail
    else:
        if low_cutoff >= nyquist and high_cutoff < 1: warning_invalid_params; fail
    if len(data_col) <= order * 3: warning_data_length; fail
    if sampling_rate < 2: warning_sampling_rate; fail
-/
def applyFilterWarnings (r : FilterReq) : List FilterWarning :=
  let nyquist : ℚ := r.sampling_rate / 2
  let cutoffWarns : List FilterWarning :=
    match r.ftype with
    | .lowPass => if nyquist ≤ r.cutoff then [.low_pass] else []
    | .highPass => if r.cutoff < 1 then [.high_pass] else []
    | .bandPass =>
        if nyquist ≤ r.low_cutoff ∧ r.high_cutoff < 1 then [.invalid_params] else []
  cutoffWarns
    ++ (if r.dataLen ≤ r.order * 3 then [.data_length] else [])
    ++ (if r.sampling_rate < 2 then [.samplingRateWarn] else [])

/-- Flag `error_check_fail` is `false` (so `butter`/`filtfilt` are reached)
exactly when no warning was issued. -/
def applyFilterProceeds (r : FilterReq) : Bool :=
  applyFilterWarnings r = []

/-! ## Envelope analysis

`EnvelopAnalysis.compute_envelope` (ea.py, lines 117-167):

    n = len(data_col)
    dt = 1.0 / self.sampling_rate
    dfq = 1.0 / (dt * n)
    idxLow = int(lowcut / dfq)
    idxHi = int(highcut / dfq)
    D = np.zeros_like(fft_data)
    D[idxLow:idxHi + 1] = fft_data[idxLow:idxHi + 1]
    D[-idxHi:-idxLow + 1] = fft_data[-idxHi:-idxLow + 1]
-/

/-- The frequency resolution `dfq = 1.0 / (dt * n) = sampling_rate / n`. -/
def envDf (sampling_rate : ℚ) (n : ℕ) : ℚ := 1 / ((1 / sampling_rate) * n)

/-- Index `idxLow = int(lowcut / dfq)` — Python `int()` truncation, not rounding. -/
def envIdxLow (lowcut sampling_rate : ℚ) (n : ℕ) : ℤ :=
  pyInt (lowcut / envDf sampling_rate n)

/-- Index `idxHi = int(highcut / dfq)` — Python `int()` truncation, not rounding. -/
def envIdxHi (highcut sampling_rate : ℚ) (n : ℕ) : ℤ :=
  pyInt (highcut / envDf sampling_rate n)

/-- Normalisation of a Python slice bound `i` against an array of length
`n`: negative bounds count from the end, and both ends are clamped. -/
def pySliceNorm (n : ℕ) (i : ℤ) : ℕ :=
  if i < 0 then (max (i + n) 0).toNat else min i.toNat n

/-- The indices selected by the Python slice `a : b` (step 1) of an array
of length `n`. -/
def pySliceIdx (n : ℕ) (a b : ℤ) : List ℕ :=
  List.range' (pySliceNorm n a) (pySliceNorm n b - pySliceNorm n a)

/-- The negative-frequency indices that `compute_envelope` copies into `D`:
the targets of `D[-idxHi : -idxLow + 1] = fft_data[-idxHi : -idxLow + 1]`. -/
def envNegSlice (n : ℕ) (idxLow idxHi : ℤ) : List ℕ :=
  pySliceIdx n (-idxHi) (-idxLow + 1)

/-- The positive-frequency indices that `compute_envelope` copies into `D`:
the targets of `D[idxLow : idxHi + 1] = fft_data[idxLow : idxHi + 1]`. -/
def envPosSlice (n : ℕ) (idxLow idxHi : ℤ) : List ℕ :=
  pySliceIdx n idxLow (idxHi + 1)

/-! ## Spectrum engine

`FFT.compute_fft` (fft.py, lines 137-144) runs, per column,

    fft_column = np.fft.fft(segment)
    fft_values.append(np.abs(fft_column[:len(fft_column) // 2]))

`np.fft.fft` with no `n` argument computes the discrete Fourier transform
of the full input length: `X[k] = Σ_n x[n] · exp(-2πi·k·n/N)`. -/

/-- Coefficient `k` of the discrete Fourier transform that `np.fft.fft`
computes on input `x` (full length, no zero-padding). -/
noncomputable def dftCoeff (x : List ℂ) (k : ℕ) : ℂ :=
  ∑ n ∈ Finset.range x.length,
    x.getD n 0 * Complex.exp (-(2 * Real.pi * Complex.I) * k * n / x.length)

/-- Model of `np.fft.fft(x)`: the full DFT, one coefficient per input sample. -/
noncomputable def npFFT (x : List ℂ) : List ℂ :=
  (List.range x.length).map (dftCoeff x)

/-- One column of `FFT.compute_fft`: `np.abs(fft_column[:len(fft_column) // 2])`. -/
noncomputable def compute_fft (x : List ℝ) : List ℝ :=
  let fft_column := npFFT (x.map Complex.ofReal)
  (fft_column.take (fft_column.length / 2)).map Complex.abs

/-! ## Time-domain features

`TimeDomainFeatures.compute_features` (timedomainfeatures.py, lines
195-263).  For the `CrestFactor` feature the per-segment body is

    rms = np.sqrt(np.mean(segment ** 2))
    crest_factor = np.max(np.abs(segment)) / rms
    segment_features.append(crest_factor)

with no guard on `rms`: the division is performed unconditionally and its
result is appended to the feature row. -/

/-- Model of `np.mean(xs)`. -/
noncomputable def npMean (xs : List ℝ) : ℝ := xs.sum / xs.length

/-- Model of `np.max(np.abs(segment))`.  For the non-empty segments the segmenter
produces, every `|t|` is non-negative, so folding with seed `0` returns the
maximum absolute value. -/
def peakValue (seg : List ℝ) : ℝ := (seg.map (fun t => |t|)).foldr max 0

/-- Model of `rms = np.sqrt(np.mean(segment ** 2))`. -/
noncomputable def rmsValue (seg : List ℝ) : ℝ :=
  Real.sqrt (npMean (seg.map (fun t => t ^ 2)))

/-- The error kind the specification assigns to mathematically undefined
feature results (`ComputationError`). -/
inductive ComputationError
  | divisionByZero
  deriving DecidableEq, Repr

/-- The `CrestFactor` branch of `compute_features`: the code has no error
path — it always returns the quotient, even when `rmsValue seg = 0`. -/
noncomputable def crestFactorFeature (seg : List ℝ) : Except ComputationError ℝ :=
  .ok (peakValue seg / rmsValue seg)

/-! ## Helper lemmas -/

theorem pyRangePos_of_nonpos (stop : ℤ) (step : ℕ) (h : stop ≤ 0) :
    pyRangePos stop step = [] := by
  unfold pyRangePos
  rw [if_neg]
  rintro ⟨h1, -⟩
  omega

theorem pyRangePos_of_pos (stop : ℤ) (step : ℕ) (h1 : 0 < stop) (h2 : 0 < step) :
    pyRangePos stop step = List.range' 0 ((stop - 1).toNat / step + 1) step :=
  if_pos ⟨h1, h2⟩

theorem segmentSignalCore_of_lt (data : List ℚ) (s d : ℕ) (h : data.length < s) :
    segmentSignalCore data s d = [] := by
  unfold segmentSignalCore
  rw [pyRangePos_of_nonpos _ _ (by omega)]
  rfl

theorem segmentSignalCore_of_le (data : List ℚ) (s d : ℕ) (hd : 0 < d)
    (h : s ≤ data.length) :
    segmentSignalCore data s d =
      (List.range' 0 ((data.length - s) / d + 1) d).map (fun i => pySliceAt data i s) := by
  unfold segmentSignalCore
  rw [pyRangePos_of_pos _ _ (by omega) hd]
  have ht : ((data.length : ℤ) - s + 1 - 1).toNat = data.length - s := by omega
  rw [ht]

/-! ## Claim theorems -/

/-- C1: For every input buffer of length `N` and every segmentation with
`segment_samples = s ≥ 1` and `step_samples = d ≥ 1`, the segmenter returns
exactly `⌊(N - s)/d⌋ + 1` segments when `N ≥ s` and zero segments when
`N < s`; the `j`-th returned segment is the contiguous window of exactly
`s` samples starting at `j·d` (starts `0, d, 2d, ...`, strictly
increasing). -/
theorem C1_segment_signal_shape (data : List ℚ) (s d : ℕ) (hs : 1 ≤ s) (hd : 1 ≤ d) :
    (data.length < s → segmentSignalCore data s d = []) ∧
    (s ≤ data.length →
      (segmentSignalCore data s d).length = (data.length - s) / d + 1) ∧
    (∀ j, j < (segmentSignalCore data s d).length →
      (segmentSignalCore data s d)[j]? = some (pySliceAt data (j * d) s) ∧
      (pySliceAt data (j * d) s).length = s) := by
  refine ⟨segmentSignalCore_of_lt data s d, ?_, ?_⟩
  · intro h
    rw [segmentSignalCore_of_le data s d hd h]
    simp
  · intro j hj
    rcases Nat.lt_or_ge data.length s with h | h
    · rw [segmentSignalCore_of_lt data s d h] at hj
      simp at hj
    · have hc := segmentSignalCore_of_le data s d hd h
      have hj' : j < (data.length - s) / d + 1 := by
        rw [hc] at hj
        simpa using hj
      have hjd : j * d ≤ data.length - s := by
        have hq : j ≤ (data.length - s) / d := by omega
        calc j * d ≤ (data.length - s) / d * d := Nat.mul_le_mul_right d hq
          _ ≤ data.length - s := Nat.div_mul_le_self _ _
      constructor
      · rw [hc, List.getElem?_map, List.getElem?_range' 0 d hj']
        simp [Nat.mul_comm]
      · unfold pySliceAt
        simp only [List.length_take, List.length_drop]
        omega

/-- Witness for C1 at `data = [1, 2, 3]`, `s = 2`, `d = 1`. -/
theorem C1_segment_signal_shape_witness :
    1 ≤ 2 ∧ 1 ≤ 1 ∧
    ((([(1 : ℚ), 2, 3]).length < 2 → segmentSignalCore [(1 : ℚ), 2, 3] 2 1 = []) ∧
     (2 ≤ ([(1 : ℚ), 2, 3]).length →
       (segmentSignalCore [(1 : ℚ), 2, 3] 2 1).length =
         (([(1 : ℚ), 2, 3]).length - 2) / 1 + 1) ∧
     (∀ j, j < (segmentSignalCore [(1 : ℚ), 2, 3] 2 1).length →
       (segmentSignalCore [(1 : ℚ), 2, 3] 2 1)[j]? =
         some (pySliceAt [(1 : ℚ), 2, 3] (j * 1) 2) ∧
       (pySliceAt [(1 : ℚ), 2, 3] (j * 1) 2).length = 2)) :=
  ⟨by decide, by decide,
    C1_segment_signal_shape [(1 : ℚ), 2, 3] 2 1 (by decide) (by decide)⟩

/-- C2 counterexample: with `segment_seconds = 1 > 0`,
`overlap_percent = 50 ∈ [0, 100)` and `sampling_rate_hz = 1 ≥ 1`, the
time-domain/frequency-domain segmenter derives `segment_samples = 1` and
`step_size = int(1 · 0.5) = 0` — there is no clamping — and segmentation
fails with a `ValueError` from `range(..., 0)` instead of using a step of 1. -/
theorem C2_zero_step_counterexample :
    segment_signal [(0 : ℚ), 0, 0, 0] 1 50 1 = .error .valueError ∧
    stepSize (segmentSamples 1 1) 50 = 0 := by
  constructor
  · norm_num [segment_signal, segmentSamples, stepSize, pyInt]
  · norm_num [segmentSamples, stepSize, pyInt]

/-- C2 amended: only `RMS.commit` clamps its step size to at least 1; the
`TimeDomainFeatures`/`FrequencyDomainFeatures` segmenter uses the unclamped
`int(segment_samples * (1 - overlap_percent/100))`, which is `0` exactly
when `segment_samples · (1 - overlap_percent/100) < 1`, and in that case
`segment_signal` fails with `ValueError` (zero-step `range`) instead of
producing segments. -/
theorem C2_step_clamp_amended (w s : ℕ) (ov : ℚ) (h0 : 0 ≤ ov) (h1 : ov < 100) :
    1 ≤ rmsStepUsed w ov ∧
    (stepSize s ov = 0 ↔ (s : ℚ) * (1 - ov / 100) < 1) ∧
    (∀ (data : List ℚ) (segment_size sampling_rate : ℚ),
      segmentSamples segment_size sampling_rate = s →
      stepSize s ov = 0 →
      segment_signal data segment_size ov sampling_rate = .error .valueError) := by
  have hq : (0 : ℚ) ≤ (s : ℚ) * (1 - ov / 100) := by
    have : (0 : ℚ) ≤ 1 - ov / 100 := by linarith
    exact mul_nonneg (by positivity) this
  refine ⟨?_, ?_, ?_⟩
  · unfold rmsStepUsed
    dsimp only
    split
    · exact le_refl 1
    · omega
  · unfold stepSize pyInt
    rw [if_pos hq, Int.floor_eq_zero_iff]
    constructor
    · intro hmem
      exact hmem.2
    · intro hlt
      exact ⟨hq, hlt⟩
  · intro data segment_size sampling_rate hss hst
    unfold segment_signal
    simp only [hss, hst]
    rfl

/-- Witness for C2 amended at `w = 1`, `s = 1`, `ov = 50`. -/
theorem C2_step_clamp_amended_witness :
    (0 : ℚ) ≤ 50 ∧ (50 : ℚ) < 100 ∧
    (1 ≤ rmsStepUsed 1 50 ∧
     (stepSize 1 50 = 0 ↔ ((1 : ℕ) : ℚ) * (1 - 50 / 100) < 1) ∧
     (∀ (data : List ℚ) (segment_size sampling_rate : ℚ),
       segmentSamples segment_size sampling_rate = 1 →
       stepSize 1 50 = 0 →
       segment_signal data segment_size 50 sampling_rate = .error .valueError)) :=
  ⟨by decide, by decide, C2_step_clamp_amended 1 1 50 (by decide) (by decide)⟩

/-- If any warning was issued, `error_check_fail` is set and `apply_filter`
returns before designing the filter. -/
theorem proceeds_false_of_mem (r : FilterReq) (w : FilterWarning)
    (h : w ∈ applyFilterWarnings r) : applyFilterProceeds r = false := by
  unfold applyFilterProceeds
  simp only [decide_eq_false_iff_not]
  intro hnil
  rw [hnil] at h
  simp at h

/-- C3 counterexample: a degenerate band-pass request with
`cutoff_low_hz = 5 ≥ cutoff_high_hz = 3` (sampling rate 20 Hz, order 1,
signal length 4) passes the whole error-check block — the code only flags
the band when `low_cutoff >= nyquist` AND `high_cutoff < 1` both hold — so
the Butterworth design step is reached, contrary to the claim that no
design is performed for a degenerate band. -/
theorem C3_bandpass_counterexample :
    applyFilterProceeds
        { ftype := .bandPass, cutoff := 1, low_cutoff := 5, high_cutoff := 3,
          order := 1, sampling_rate := 20, dataLen := 4 } = true ∧
    (3 : ℚ) ≤ 5 := by
  constructor
  · norm_num [applyFilterProceeds, applyFilterWarnings]
  · norm_num

/-- C3 amended: for a BandPass request the error-check block issues
`InvalidParameter` exactly when `cutoff_low_hz ≥ Nyquist` AND
`cutoff_high_hz < 1 Hz` simultaneously (and then no design is performed);
a band that is merely degenerate (`low ≥ high`) is not caught by the
pre-check and reaches the `butter` design call (whose `ValueError`, if
any, is caught and reported as `InvalidParameter` afterwards). -/
theorem C3_bandpass_check_amended (r : FilterReq) (hb : r.ftype = .bandPass) :
    (FilterWarning.invalid_params ∈ applyFilterWarnings r ↔
      (r.sampling_rate / 2 ≤ r.low_cutoff ∧ r.high_cutoff < 1)) ∧
    ((r.sampling_rate / 2 ≤ r.low_cutoff ∧ r.high_cutoff < 1) →
      applyFilterProceeds r = false) := by
  constructor
  · unfold applyFilterWarnings
    rw [hb]
    split_ifs <;> simp_all
  · intro hcond
    apply proceeds_false_of_mem r .invalid_params
    unfold applyFilterWarnings
    rw [hb]
    split_ifs <;> simp_all

/-- Witness for C3 amended: a band-pass request with both cutoffs out of
range (`low = 15 ≥ nyquist = 10`, `high = 1/2 < 1`). -/
theorem C3_bandpass_check_amended_witness :
    (({ ftype := .bandPass, cutoff := 1, low_cutoff := 15, high_cutoff := 1/2,
        order := 1, sampling_rate := 20, dataLen := 10 } : FilterReq).ftype
        = FilterType.bandPass) ∧
    ((FilterWarning.invalid_params ∈ applyFilterWarnings
        { ftype := .bandPass, cutoff := 1, low_cutoff := 15, high_cutoff := 1/2,
          order := 1, sampling_rate := 20, dataLen := 10 } ↔
      ((20 : ℚ) / 2 ≤ 15 ∧ (1 : ℚ)/2 < 1)) ∧
     (((20 : ℚ) / 2 ≤ 15 ∧ (1 : ℚ)/2 < 1) →
      applyFilterProceeds
        { ftype := .bandPass, cutoff := 1, low_cutoff := 15, high_cutoff := 1/2,
          order := 1, sampling_rate := 20, dataLen := 10 } = false)) :=
  ⟨rfl, C3_bandpass_check_amended _ rfl⟩

/-- C7: `apply_filter` flags `InsufficientData` exactly when
`len(samples) ≤ 3·order` (for any order, in particular orders 1 to 5), and
when it flags the request is rejected before any design work. -/
theorem C7_insufficient_data (r : FilterReq) (h1 : 1 ≤ r.order) (h5 : r.order ≤ 5) :
    (FilterWarning.data_length ∈ applyFilterWarnings r ↔ r.dataLen ≤ 3 * r.order) ∧
    (r.dataLen ≤ 3 * r.order → applyFilterProceeds r = false) := by
  constructor
  · unfold applyFilterWarnings
    cases r.ftype <;> split_ifs <;> simp_all <;> omega
  · intro hcond
    apply proceeds_false_of_mem r .data_length
    unfold applyFilterWarnings
    cases r.ftype <;> split_ifs <;> simp_all <;> omega

/-- Witness for C7: order 2, signal of 6 samples (`6 ≤ 3·2`). -/
theorem C7_insufficient_data_witness :
    (1 ≤ ({ ftype := .lowPass, cutoff := 1, low_cutoff := 1, high_cutoff := 10,
            order := 2, sampling_rate := 100, dataLen := 6 } : FilterReq).order) ∧
    (({ ftype := .lowPass, cutoff := 1, low_cutoff := 1, high_cutoff := 10,
        order := 2, sampling_rate := 100, dataLen := 6 } : FilterReq).order ≤ 5) ∧
    ((FilterWarning.data_length ∈ applyFilterWarnings
        { ftype := .lowPass, cutoff := 1, low_cutoff := 1, high_cutoff := 10,
          order := 2, sampling_rate := 100, dataLen := 6 } ↔ (6 : ℕ) ≤ 3 * 2) ∧
     ((6 : ℕ) ≤ 3 * 2 →
      applyFilterProceeds
        { ftype := .lowPass, cutoff := 1, low_cutoff := 1, high_cutoff := 10,
          order := 2, sampling_rate := 100, dataLen := 6 } = false)) :=
  ⟨by decide, by decide, C7_insufficient_data _ (by decide) (by decide)⟩

/-- C9: every request with `sampling_rate_hz < 2` is rejected: the
sampling-rate warning is issued and the design/filter step is never
reached, regardless of the other parameters. -/
theorem C9_sampling_rate_check (r : FilterReq) (h : r.sampling_rate < 2) :
    FilterWarning.samplingRateWarn ∈ applyFilterWarnings r ∧
    applyFilterProceeds r = false := by
  have hmem : FilterWarning.samplingRateWarn ∈ applyFilterWarnings r := by
    unfold applyFilterWarnings
    cases r.ftype <;> split_ifs <;> simp_all
  exact ⟨hmem, proceeds_false_of_mem r _ hmem⟩

/-- Witness for C9: a request whose cutoff, order and signal length are
otherwise valid (`cutoff = 1/4 < nyquist = 1/2`, order 1, 10 samples) but
whose sampling rate is `1 < 2`. -/
theorem C9_sampling_rate_check_witness :
    (({ ftype := .lowPass, cutoff := 1/4, low_cutoff := 1, high_cutoff := 10,
        order := 1, sampling_rate := 1, dataLen := 10 } : FilterReq).sampling_rate < 2) ∧
    (FilterWarning.samplingRateWarn ∈ applyFilterWarnings
        { ftype := .lowPass, cutoff := 1/4, low_cutoff := 1, high_cutoff := 10,
          order := 1, sampling_rate := 1, dataLen := 10 } ∧
     applyFilterProceeds
        { ftype := .lowPass, cutoff := 1/4, low_cutoff := 1, high_cutoff := 10,
          order := 1, sampling_rate := 1, dataLen := 10 } = false) :=
  ⟨by decide, C9_sampling_rate_check _ (by decide)⟩

/-- C4 counterexample: with `N = 10` samples at 10 Hz the resolution is
`df = 1` Hz, and a band edge of 1.5 Hz is converted to bin
`int(1.5) = 1`, not `round(1.5) = 2`: the code truncates, it does not
round to the nearest integer. -/
theorem C4_bin_conversion_counterexample :
    envIdxLow (3 / 2) 10 10 = 1 ∧
    round ((3 / 2 : ℚ) / envDf 10 10) = 2 ∧
    envIdxLow (3 / 2) 10 10 ≠ round ((3 / 2 : ℚ) / envDf 10 10) := by
  have h1 : envIdxLow (3 / 2) 10 10 = 1 := by
    norm_num [envIdxLow, envDf, pyInt]
  have h2 : round ((3 / 2 : ℚ) / envDf 10 10) = 2 := by
    rw [round_eq]
    norm_num [envDf]
  exact ⟨h1, h2, by rw [h1, h2]; decide⟩

/-- C4 amended: `compute_envelope` converts the band edges to bin indices
with Python `int()` truncation toward zero, `idx = trunc(edge / df)` with
`df = sampling_rate_hz / N`; for the non-negative quotients that arise this
is the floor, not round-to-nearest. -/
theorem C4_bin_conversion_amended (lowcut highcut sampling_rate : ℚ) (n : ℕ)
    (hl : 0 ≤ lowcut / envDf sampling_rate n)
    (hh : 0 ≤ highcut / envDf sampling_rate n) :
    envIdxLow lowcut sampling_rate n = ⌊lowcut / envDf sampling_rate n⌋ ∧
    envIdxHi highcut sampling_rate n = ⌊highcut / envDf sampling_rate n⌋ := by
  constructor
  · unfold envIdxLow pyInt
    rw [if_pos hl]
  · unfold envIdxHi pyInt
    rw [if_pos hh]

/-- Witness for C4 amended at `lowcut = 3/2`, `highcut = 3`,
`sampling_rate = 10`, `n = 10`. -/
theorem C4_bin_conversion_amended_witness :
    (0 : ℚ) ≤ (3 / 2 : ℚ) / envDf 10 10 ∧ (0 : ℚ) ≤ (3 : ℚ) / envDf 10 10 ∧
    (envIdxLow (3 / 2) 10 10 = ⌊(3 / 2 : ℚ) / envDf 10 10⌋ ∧
     envIdxHi 3 10 10 = ⌊(3 : ℚ) / envDf 10 10⌋) :=
  ⟨by norm_num [envDf], by norm_num [envDf],
    C4_bin_conversion_amended (3 / 2) 3 10 10 (by norm_num [envDf]) (by norm_num [envDf])⟩

/-- C10 counterexample: with `N = 8`, `idxLow = 1`, `idxHi = 3` the
negative-frequency copy `D[-3 : -1 + 1] = D[-3 : 0]` is the *empty* slice
(its stop index normalises to 0), not the mirrored bins `[5, 6, 7]`
claimed for `idxLow ≥ 1`. -/
theorem C10_neg_slice_counterexample :
    envNegSlice 8 1 3 = [] ∧ envNegSlice 8 1 3 ≠ [5, 6, 7] := by
  constructor
  · decide
  · decide

/-- C10 amended: in the negative-frequency copy
`D[-idxHi : -idxLow + 1]`, the slice is empty not only when `idxLow = 0`
(given `1 ≤ idxHi ≤ N - 1`) but also when `idxLow = 1` (the stop bound
`-idxLow + 1 = 0` normalises to index 0); only for `idxLow ≥ 2` does the
slice retain exactly the mirrored bins `N - idxHi .. N - idxLow`, so
Hermitian symmetry of the band-limited spectrum holds only when
`idxLow ≥ 2`. -/
theorem C10_neg_slice_amended (n idxLow idxHi : ℕ)
    (hLH : idxLow ≤ idxHi) (hHn : idxHi ≤ n - 1) (hH1 : 1 ≤ idxHi) (hn : 2 ≤ n) :
    (idxLow ≤ 1 → envNegSlice n idxLow idxHi = []) ∧
    (2 ≤ idxLow →
      envNegSlice n idxLow idxHi = List.range' (n - idxHi) (idxHi - idxLow + 1)) := by
  constructor
  · intro hle
    unfold envNegSlice pySliceIdx
    have hz : pySliceNorm n (-(idxLow : ℤ) + 1) - pySliceNorm n (-(idxHi : ℤ)) = 0 := by
      unfold pySliceNorm
      split_ifs <;> omega
    rw [hz]
    rfl
  · intro h2
    unfold envNegSlice pySliceIdx
    have hs : pySliceNorm n (-(idxHi : ℤ)) = n - idxHi := by
      unfold pySliceNorm
      split_ifs <;> omega
    have he : pySliceNorm n (-(idxLow : ℤ) + 1) = n + 1 - idxLow := by
      unfold pySliceNorm
      split_ifs <;> omega
    rw [hs, he]
    congr 1
    omega

/-- Witness for C10 amended at `N = 8`, `idxLow = 2`, `idxHi = 3`. -/
theorem C10_neg_slice_amended_witness :
    (2 : ℕ) ≤ 3 ∧ (3 : ℕ) ≤ 8 - 1 ∧ (1 : ℕ) ≤ 3 ∧ (2 : ℕ) ≤ 8 ∧
    (((2 : ℕ) ≤ 1 → envNegSlice 8 2 3 = []) ∧
     ((2 : ℕ) ≤ 2 → envNegSlice 8 2 3 = List.range' (8 - 3) (3 - 2 + 1))) :=
  ⟨by decide, by decide, by decide, by decide,
    C10_neg_slice_amended 8 2 3 (by decide) (by decide) (by decide) (by decide)⟩

/-- C5: `compute_features` has no error path for `CrestFactor` — the
quotient `np.max(np.abs(segment)) / rms` is appended unconditionally — and
on the constant-zero segment the divisor `rms` is exactly 0, so a division
by zero is performed instead of raising `ComputationError`. -/
theorem C5_crest_factor_no_error_check :
    (∀ (seg : List ℝ) (e : ComputationError), crestFactorFeature seg ≠ .error e) ∧
    rmsValue [(0 : ℝ), 0] = 0 ∧
    crestFactorFeature [(0 : ℝ), 0] = .ok (peakValue [(0 : ℝ), 0] / 0) := by
  have hrms : rmsValue [(0 : ℝ), 0] = 0 := by
    unfold rmsValue npMean
    norm_num
  refine ⟨?_, hrms, ?_⟩
  · intro seg e h
    exact Except.noConfusion h
  · unfold crestFactorFeature
    rw [hrms]

/-! DFT helper lemmas for the spectrum claims. -/

theorem npFFT_length (x : List ℂ) : (npFFT x).length = x.length := by
  unfold npFFT
  simp

theorem npFFT_getElem? (x : List ℂ) (k : ℕ) (hk : k < x.length) :
    (npFFT x)[k]? = some (dftCoeff x k) := by
  unfold npFFT
  rw [List.getElem?_map, List.getElem?_range hk]
  rfl

/-- C6: `compute_fft` computes the DFT of the full input length (no
zero-padding), takes magnitudes, and returns exactly the first `⌊N/2⌋`
bins: the result has length `⌊N/2⌋` (empty for `N = 1`) and its `k`-th
entry is the absolute value of DFT coefficient `k`. -/
theorem C6_compute_fft_halfspectrum (x : List ℝ) (hx : x ≠ []) :
    (compute_fft x).length = x.length / 2 ∧
    (∀ k, k < x.length / 2 →
      (compute_fft x)[k]? =
        some (Complex.abs (dftCoeff (x.map Complex.ofReal) k))) ∧
    (x.length = 1 → compute_fft x = []) := by
  have hlen : (npFFT (x.map Complex.ofReal)).length = x.length := by
    rw [npFFT_length, List.length_map]
  refine ⟨?_, ?_, ?_⟩
  · unfold compute_fft
    simp only [List.length_map, List.length_take, hlen]
    omega
  · intro k hk
    unfold compute_fft
    simp only [hlen]
    rw [List.getElem?_map, List.getElem?_take]
    rw [if_pos hk, npFFT_getElem?]
    · rfl
    · rw [List.length_map]
      omega
  · intro h1
    unfold compute_fft
    simp only [hlen, h1]
    rfl

/-- Witness for C6 at `x = [1, 2]`. -/
theorem C6_compute_fft_halfspectrum_witness :
    ([(1 : ℝ), 2] ≠ []) ∧
    ((compute_fft [(1 : ℝ), 2]).length = ([(1 : ℝ), 2]).length / 2 ∧
     (∀ k, k < ([(1 : ℝ), 2]).length / 2 →
       (compute_fft [(1 : ℝ), 2])[k]? =
         some (Complex.abs (dftCoeff ([(1 : ℝ), 2].map Complex.ofReal) k))) ∧
     (([(1 : ℝ), 2]).length = 1 → compute_fft [(1 : ℝ), 2] = [])) :=
  ⟨by simp, C6_compute_fft_halfspectrum [(1 : ℝ), 2] (by simp)⟩

/-- Scaling every input sample by `c` scales every DFT coefficient by `c`. -/
theorem dftCoeff_const_mul (x : List ℂ) (c : ℂ) (j : ℕ) :
    dftCoeff (x.map (fun z => c * z)) j = c * dftCoeff x j := by
  unfold dftCoeff
  rw [List.length_map, Finset.mul_sum]
  refine Finset.sum_congr rfl ?_
  intro n hn
  have hd : (x.map (fun z => c * z)).getD n 0 = c * x.getD n 0 := by
    rcases Nat.lt_or_ge n x.length with h | h
    · rw [List.getD_eq_getElem _ _ (by simpa using h), List.getD_eq_getElem _ _ h]
      simp
    · rw [List.getD_eq_default _ _ (by simpa using h), List.getD_eq_default _ _ h]
      simp
  rw [hd]
  ring

/-- C8: the spectrum is linear in amplitude — multiplying every sample by
`k` multiplies every returned magnitude by `|k|`, bin by bin. -/
theorem C8_compute_fft_amplitude_linear (x : List ℝ) (k : ℝ) :
    compute_fft (x.map (fun t => k * t)) = (compute_fft x).map (fun m => |k| * m) := by
  have hmap : (x.map (fun t => k * t)).map Complex.ofReal =
      (x.map Complex.ofReal).map (fun z => (k : ℂ) * z) := by
    rw [List.map_map, List.map_map]
    refine List.map_congr_left ?_
    intro t ht
    simp [Function.comp, Complex.ofReal_mul]
  have hfft : ∀ y : List ℂ,
      npFFT (y.map (fun z => (k : ℂ) * z)) = (npFFT y).map (fun z => (k : ℂ) * z) := by
    intro y
    unfold npFFT
    rw [List.length_map, List.map_map]
    refine List.map_congr_left ?_
    intro j hj
    exact dftCoeff_const_mul y _ j
  simp only [compute_fft]
  rw [hmap, hfft, List.length_map, ← List.map_take, List.map_map, List.map_map]
  refine List.map_congr_left ?_
  intro z hz
  simp [Function.comp, map_mul, Complex.abs_ofReal]

end SigProc
